import Mathlib

/-!
Shallow embedding of the `ember-lifeline` owner-scoped resource registries:
the debounce coordinator (`addon/debounce-task.ts`) and the DOM event
subscription ledger (`addon/dom-event-listeners.js`).

Owners, task names, DOM elements, event names and callback functions are
identified by natural numbers.  Function *identity* (fresh closures created
by the source, e.g. the debounce wrapper or the `run.bind` dispatch
callback) is modelled by drawing a fresh id from a monotone counter.
The external collaborators (Ember run loop timer service, DOM event targets,
disposable ledger) are not part of the repository; they are modelled from
the spec's boundary contract (spec sections 4.2 and 6) and all calls to them
are recorded explicitly in the state so theorems can speak about them.
-/

namespace EmberLifeline

/-- Association-list lookup keyed by `Nat`, mirroring `Map`/plain-object
property access in the source (`pendingDebounces[name]`, `WeakMap.get`). -/
def assocLookup {α : Type} (l : List (Nat × α)) (k : Nat) : Option α :=
  match l.find? (fun p => p.1 == k) with
  | some p => some p.2
  | none => none

/-- Association-list update (`pendingDebounces[name] = ...`, `WeakMap.set`). -/
def assocInsert {α : Type} (l : List (Nat × α)) (k : Nat) (v : α) : List (Nat × α) :=
  (k, v) :: l.filter (fun p => p.1 != k)

/-- Association-list deletion (`delete pendingDebounces[name]`). -/
def assocErase {α : Type} (l : List (Nat × α)) (k : Nat) : List (Nat × α) :=
  l.filter (fun p => p.1 != k)

/-- A stored pending debounce, `{ debouncedTask, cancelId }` from
`debounce-task.ts`.  `debouncedTask` is the identity of the wrapper
closure; `cancelId` the timer token from the last scheduling call. -/
structure PendingDebounce where
  debouncedTask : Nat
  cancelId : Nat
deriving DecidableEq, Repr

/-- A pending timer of the external timer service.  `wrapperId` is the
identity of the scheduled wrapper closure, `wrapperName` the task name the
wrapper closure captured, `args` the arguments of the most recent
scheduling call. -/
structure Timer where
  owner : Nat
  wrapperId : Nat
  wrapperName : Nat
  args : List Nat
  wait : Nat
deriving DecidableEq, Repr

/-- The whole mutable state touched by `debounce-task.ts`: the module level
`registeredDebounces` WeakMap (`blobs`), the external timer service's
pending timers keyed by cancellation token, the owners for which a
disposable was registered with the external ledger, the log of completed
`obj[name](...)` invocations, and a counter for fresh identities. -/
structure DbState where
  blobs : List (Nat × List (Nat × PendingDebounce))
  timers : List (Nat × Timer)
  disposables : List Nat
  invocations : List (Nat × Nat × List Nat)
  nextId : Nat
deriving DecidableEq, Repr

/-- Static facts about owner objects: whether `obj[name]` is a function and
whether `obj.isDestroyed` holds. -/
structure DbEnv where
  hasMethod : Nat → Nat → Bool
  isDestroyed : Nat → Bool

/-- The empty initial state: no blobs, no timers, nothing invoked. -/
def dbInit : DbState :=
  { blobs := [], timers := [], disposables := [], invocations := [], nextId := 0 }

/-- Errors signalled by the `assert` calls at the top of the public
functions. -/
inductive LifelineError where
  | invalidTask
  | invalidOwner
  | missingElement
  | notAnElement
deriving DecidableEq, Repr

/-- Modelled from the spec: the external timer service's
`schedule(wrapper, args..., delay) -> cancelToken` (spec sections 4.2, 6), the
Ember run loop `debounce`.  It coalesces by `(target, wrapper)` identity:
any pending timer for the same owner and wrapper closure is superseded, and
a fresh cancellation token is returned on every call. -/
def Ember.debounce (owner wrapperId wrapperName : Nat) (args : List Nat)
    (wait : Nat) (s : DbState) : Nat × DbState :=
  let cancelId := s.nextId
  let kept := s.timers.filter
    (fun p => !(p.2.owner == owner && p.2.wrapperId == wrapperId))
  (cancelId,
    { s with
      timers := (cancelId, ⟨owner, wrapperId, wrapperName, args, wait⟩) :: kept,
      nextId := s.nextId + 1 })

/-- Modelled from the spec: the external timer service's
`cancel(cancelToken)` (spec section 6), the Ember run loop `cancel`; the
pending timer with that token, if any, is discarded. -/
def Ember.cancel (cancelId : Nat) (s : DbState) : DbState :=
  { s with timers := s.timers.filter (fun p => p.1 != cancelId) }

/-- Entry lookup through both levels: the owner's blob in
`registeredDebounces`, then the task name inside the blob. -/
def lookupEntry (s : DbState) (obj name : Nat) : Option PendingDebounce :=
  match assocLookup s.blobs obj with
  | some bl => assocLookup bl name
  | none => none

/-- Embedding of `debounceTask(obj, name, ...debounceArgs, wait)` from
`debounce-task.ts` lines 56-97.  The three `assert`s come first (the
`typeof name === 'string'` assert is enforced by typing here); then the
blob is looked up or lazily created (registering the disposable on
creation); then the wrapper is reused or built fresh; then the external
timer service is asked to (re)schedule and the returned token is stored
unconditionally. -/
def debounceTask (env : DbEnv) (obj name : Nat) (args : List Nat) (wait : Nat)
    (s : DbState) : Except LifelineError DbState :=
  if env.hasMethod obj name = false then
    .error .invalidTask
  else if env.isDestroyed obj then
    .error .invalidOwner
  else
    let blobStep : List (Nat × PendingDebounce) × DbState :=
      match assocLookup s.blobs obj with
      | some bl => (bl, s)
      | none =>
        ([], { s with
               blobs := assocInsert s.blobs obj [],
               disposables := obj :: s.disposables })
    let bl := blobStep.1
    let s1 := blobStep.2
    let wrapperStep : Nat × DbState :=
      match assocLookup bl name with
      | some pd => (pd.debouncedTask, s1)
      | none => (s1.nextId, { s1 with nextId := s1.nextId + 1 })
    let debouncedTask := wrapperStep.1
    let s2 := wrapperStep.2
    let sched := Ember.debounce obj debouncedTask name args wait s2
    let cancelId := sched.1
    let s3 := sched.2
    .ok { s3 with
          blobs := assocInsert s3.blobs obj
            (assocInsert bl name ⟨debouncedTask, cancelId⟩) }

/-- Embedding of `cancelDebounce(obj, name)` from `debounce-task.ts` lines 132-146:
no-op when no blob or no entry exists, otherwise delete the entry and
cancel the stored token. -/
def cancelDebounce (obj name : Nat) (s : DbState) : DbState :=
  match assocLookup s.blobs obj with
  | none => s
  | some bl =>
    match assocLookup bl name with
    | none => s
    | some pd =>
      let s1 := { s with blobs := assocInsert s.blobs obj (assocErase bl name) }
      Ember.cancel pd.cancelId s1

/-- Delivery of a pending timer by the external timer service: the wrapper
closure built at `debounce-task.ts` lines 85-88 runs with the latest
arguments — it first `delete`s its entry from the captured blob and then
invokes `obj[name](...args)` (recorded in the invocation log).  A token
that is no longer pending delivers nothing. -/
def fireTimer (cid : Nat) (s : DbState) : DbState :=
  match assocLookup s.timers cid with
  | none => s
  | some t =>
    let s1 := { s with timers := assocErase s.timers cid }
    let s2 :=
      match assocLookup s1.blobs t.owner with
      | some bl =>
        { s1 with blobs := assocInsert s1.blobs t.owner (assocErase bl t.wrapperName) }
      | none => s1
    { s2 with invocations := s2.invocations ++ [(t.owner, t.wrapperName, t.args)] }

/-- Running the teardown closure `getDebouncesDisposable` builds at
`debounce-task.ts` lines 148-162 for `obj`'s blob: if the blob is missing
(the closure was never created) or has no keys, return early; otherwise
cancel each entry's stored token in turn.  The blob itself is not
modified. -/
def getDebouncesDisposable (obj : Nat) (s : DbState) : DbState :=
  match assocLookup s.blobs obj with
  | none => s
  | some debounces =>
    if debounces.isEmpty then s
    else
      { s with
        timers := (debounces.map (fun q => q.2.cancelId)).foldl
          (fun ts cid => ts.filter (fun p => p.1 != cid)) s.timers }

/-- Wrapper around `debounceTask` with a failed `assert` leaving the state untouched
(the asserts precede every mutation in the source). -/
def debounceStep (env : DbEnv) (obj name : Nat) (args : List Nat) (wait : Nat)
    (s : DbState) : DbState :=
  match debounceTask env obj name args wait s with
  | .ok s1 => s1
  | .error _ => s

/-- A slot of the flat subscription array of `dom-event-listeners.js`: the
array interleaves plain values (element, event name, callbacks) with the
possibly-`undefined` options value, five slots per subscription. -/
inductive Slot where
  | v (n : Nat)
  | o (x : Option Nat)
deriving DecidableEq, Repr

/-- A call made to an external collaborator of
`dom-event-listeners.js`, one constructor per call site:
`element.addEventListener` (line 101), `element.removeEventListener` in
`removeEventListener` (line 149, whose callback argument is a raw read of
`listeners[i + 2]`), and `element.removeEventListener` in the teardown
closure (line 166, whose arguments are raw slot reads). -/
inductive ExtCall where
  | addL (element eventName callback : Nat) (options : Option Nat)
  | removeL (element eventName : Nat) (callback : Option Slot) (options : Option Nat)
  | removeT (element eventName callback options : Slot)
deriving DecidableEq, Repr

/-- The whole mutable state touched by `dom-event-listeners.js`: the
module-level `eventListeners` WeakMap (`lists`), the process-wide
`PASSIVE_SUPPORTED` constant computed once at module evaluation, the log
of calls to the external event source, the owners with a registered
disposable, the owners whose teardown closure has already run (the
closure nulls out its captured variable, making a second run a no-op),
and a counter for fresh `run.bind` callback identities. -/
structure EvState where
  passiveSupported : Bool
  lists : List (Nat × List Slot)
  extCalls : List ExtCall
  evDisposables : List Nat
  evTorn : List Nat
  nextCb : Nat
deriving DecidableEq, Repr

/-- Static facts about DOM values: whether a value is an actual `Element`. -/
structure EvEnv where
  isElement : Nat → Bool

/-- Initial event-subsystem state; `PASSIVE_SUPPORTED` is fixed at module
evaluation and never changes afterwards, so it is a parameter here. -/
def evInit (ps : Bool) : EvState :=
  { passiveSupported := ps, lists := [], extCalls := [], evDisposables := [],
    evTorn := [], nextCb := 0 }

/-- Embedding of `getEventListeners(obj)` from `dom-event-listeners.js` lines 173-183:
return the owner's flat list, creating an empty one (and registering the
disposable) on first access. -/
def getEventListeners (obj : Nat) (s : EvState) : List Slot × EvState :=
  match assocLookup s.lists obj with
  | some l => (l, s)
  | none =>
    ([], { s with
           lists := assocInsert s.lists obj [],
           evDisposables := obj :: s.evDisposables })

/-- Embedding of `addEventListener(obj, element, eventName, _callback, options)` from
`dom-event-listeners.js` lines 87-103: assert the element, bind a fresh
dispatch callback, fetch or create the owner's list, drop `options` when
`PASSIVE_SUPPORTED` is false, register with the event source, and push the
five slots. -/
def addEventListener (env : EvEnv) (obj : Nat) (element : Option Nat)
    (eventName cb : Nat) (options : Option Nat) (s : EvState) :
    Except LifelineError EvState :=
  match element with
  | none => .error .missingElement
  | some e =>
    if env.isElement e = false then .error .notAnElement
    else
      let callback := s.nextCb
      let s0 := { s with nextCb := s.nextCb + 1 }
      let got := getEventListeners obj s0
      let listeners := got.1
      let s1 := got.2
      let options2 := if s1.passiveSupported then options else none
      .ok { s1 with
            extCalls := s1.extCalls ++ [ExtCall.addL e eventName callback options2],
            lists := assocInsert s1.lists obj
              (listeners ++ [Slot.v e, Slot.v eventName, Slot.v callback,
                             Slot.v cb, Slot.o options2]) }

/-- The scan loop of `removeEventListener`, lines 139-153: starting at
index `i`, step by `LISTENER_ITEM_LENGTH = 5` while `i < listeners.length`,
returning the first index whose element, event-name and original-callback
slots match (out-of-range reads compare unequal, as `undefined` does). -/
def findListener (flat : List Slot) (e eventName cb : Nat) (i : Nat) : Option Nat :=
  if h : i < flat.length then
    if flat.get? i = some (Slot.v e) ∧ flat.get? (i + 1) = some (Slot.v eventName) ∧
        flat.get? (i + 3) = some (Slot.v cb) then
      some i
    else
      findListener flat e eventName cb (i + 5)
  else
    none
termination_by flat.length - i
decreasing_by omega

/-- Embedding of `removeEventListener(obj, element, eventName, callback, options)` from
`dom-event-listeners.js` lines 112-154: assert the element, fetch or
create the owner's list, return early when it is empty, drop `options`
when `PASSIVE_SUPPORTED` is false, scan for the first matching tuple and,
if found, unregister `listeners[i + 2]` from the target and splice out the
five slots. -/
def removeEventListener (env : EvEnv) (obj : Nat) (element : Option Nat)
    (eventName cb : Nat) (options : Option Nat) (s : EvState) :
    Except LifelineError EvState :=
  match element with
  | none => .error .missingElement
  | some e =>
    if env.isElement e = false then .error .notAnElement
    else
      let got := getEventListeners obj s
      let listeners := got.1
      let s1 := got.2
      if listeners.length = 0 then .ok s1
      else
        let options2 := if s1.passiveSupported then options else none
        match findListener listeners e eventName cb 0 with
        | none => .ok s1
        | some i =>
          let ownCallback := listeners.get? (i + 2)
          .ok { s1 with
                extCalls := s1.extCalls ++ [ExtCall.removeL e eventName ownCallback options2],
                lists := assocInsert s1.lists obj
                  (listeners.take i ++ listeners.drop (i + 5)) }

/-- The iteration of the teardown closure from `dom-event-listeners.js`
lines 160-167: five slots at a time, read the element, event-name,
dispatch-callback and options slots and unregister from the event
source.  Reachable lists always hold a whole number of 5-slot tuples. -/
def teardownCalls : List Slot → List ExtCall
  | a :: b :: c :: _ :: e :: rest => ExtCall.removeT a b c e :: teardownCalls rest
  | _ => []

/-- Running the teardown closure `getEventListenersDisposable` builds at
`dom-event-listeners.js` lines 156-171 for `obj`: a no-op if the closure
already ran (it reassigns its captured variable to `undefined`) or was
never created; otherwise unregister every tracked wrapper from the event
source.  The flat list stored in the registry is not modified. -/
def getEventListenersDisposable (obj : Nat) (s : EvState) : EvState :=
  if obj ∈ s.evTorn then s
  else
    match assocLookup s.lists obj with
    | none => s
    | some listeners =>
      { s with
        extCalls := s.extCalls ++ teardownCalls listeners,
        evTorn := obj :: s.evTorn }

/-- One externally triggered event of the debounce subsystem: a
`debounceTask` call, a `cancelDebounce` call, a timer delivery, or a run
of the owner's teardown closure at disposal. -/
inductive DbOp where
  | sched (obj name : Nat) (args : List Nat) (wait : Nat)
  | cancelOp (obj name : Nat)
  | fire (cid : Nat)
  | dispose (obj : Nat)
deriving DecidableEq, Repr

/-- Total step function for debounce operations; a `debounceTask` call
whose asserts fail leaves the state unchanged. -/
def dbStep (env : DbEnv) (op : DbOp) (s : DbState) : DbState :=
  match op with
  | .sched obj name args wait => debounceStep env obj name args wait s
  | .cancelOp obj name => cancelDebounce obj name s
  | .fire cid => fireTimer cid s
  | .dispose obj => getDebouncesDisposable obj s

/-- Run a sequence of debounce operations in order. -/
def dbRun (env : DbEnv) (tr : List DbOp) (s : DbState) : DbState :=
  tr.foldl (fun st op => dbStep env op st) s

/-- Whether a blob for `obj` is present in `registeredDebounces`. -/
def dbBlobExists (s : DbState) (obj : Nat) : Bool :=
  (assocLookup s.blobs obj).isSome

/-- Whether a debounce operation creates `obj`'s blob when none exists: a
`debounceTask` call for `obj` whose asserts pass. -/
def DbOp.creates (env : DbEnv) (obj : Nat) : DbOp → Bool
  | .sched o n _ _ => o == obj && env.hasMethod o n && !env.isDestroyed o
  | _ => false

/-- One externally triggered event of the event subsystem: an
`addEventListener` call, a `removeEventListener` call, or a run of the
owner's teardown closure at disposal. -/
inductive EvOp where
  | add (obj : Nat) (element : Option Nat) (eventName cb : Nat) (options : Option Nat)
  | removeOp (obj : Nat) (element : Option Nat) (eventName cb : Nat) (options : Option Nat)
  | dispose (obj : Nat)
deriving DecidableEq, Repr

/-- Total step function for event operations; a call whose asserts fail
leaves the state unchanged. -/
def evStep (env : EvEnv) (op : EvOp) (s : EvState) : EvState :=
  match op with
  | .add obj element eventName cb options =>
    match addEventListener env obj element eventName cb options s with
    | .ok s1 => s1
    | .error _ => s
  | .removeOp obj element eventName cb options =>
    match removeEventListener env obj element eventName cb options s with
    | .ok s1 => s1
    | .error _ => s
  | .dispose obj => getEventListenersDisposable obj s

/-- Run a sequence of event operations in order. -/
def evRun (env : EvEnv) (tr : List EvOp) (s : EvState) : EvState :=
  tr.foldl (fun st op => evStep env op st) s

/-- Whether a blob for `obj` is present in the `eventListeners` WeakMap. -/
def evBlobExists (s : EvState) (obj : Nat) : Bool :=
  (assocLookup s.lists obj).isSome

/-- Whether an event operation reaches `getEventListeners` for `obj` (and
hence creates its blob when none exists): an `addEventListener` or
`removeEventListener` call for `obj` whose element assert passes. -/
def EvOp.creates (env : EvEnv) (obj : Nat) : EvOp → Bool
  | .add o (some e) _ _ _ => o == obj && env.isElement e
  | .removeOp o (some e) _ _ _ => o == obj && env.isElement e
  | _ => false

/-- Whether an event operation is a registration (`addEventListener`). -/
def EvOp.isRegistration : EvOp → Bool
  | .add _ _ _ _ _ => true
  | _ => false

/-- The pending timers belonging to one owner. -/
def timersFor (s : DbState) (obj : Nat) : List (Nat × Timer) :=
  s.timers.filter (fun p => p.2.owner == obj)

/-- Executable well-formedness check: every pending timer is the one
recorded by a stored debounce entry — its key is that entry's stored
cancellation token and its wrapper is that entry's stored wrapper.  This
holds in every reachable state and is the hypothesis under which
cancellation really leaves nothing pending. -/
def timersStoredB (s : DbState) : Bool :=
  s.timers.all (fun p =>
    match assocLookup s.blobs p.2.owner with
    | none => false
    | some bl =>
      match assocLookup bl p.2.wrapperName with
      | none => false
      | some pd => pd.cancelId == p.1 && pd.debouncedTask == p.2.wrapperId)

theorem find?_filter_ne {α : Type} (l : List (Nat × α)) (k k' : Nat) (h : k' ≠ k) :
    (l.filter (fun p => p.1 != k)).find? (fun p => p.1 == k') =
      l.find? (fun p => p.1 == k') := by
  induction l with
  | nil => rfl
  | cons a l ih =>
    by_cases hk : a.1 = k
    · have h1 : (a.1 != k) = false := by simp [hk]
      have h2 : (a.1 == k') = false := by simp [hk]; omega
      simp [List.filter_cons, h1, List.find?_cons, h2, ih]
    · have h1 : (a.1 != k) = true := by simp [hk]
      by_cases hk' : a.1 = k'
      · simp [List.filter_cons, h1, List.find?_cons, hk', h]
      · have h2 : (a.1 == k') = false := by simp [hk']
        simp [List.filter_cons, h1, List.find?_cons, h2, ih]

theorem assocLookup_insert_self {α : Type} (l : List (Nat × α)) (k : Nat) (v : α) :
    assocLookup (assocInsert l k v) k = some v := by
  simp [assocLookup, assocInsert, List.find?_cons]

theorem assocLookup_insert_ne {α : Type} (l : List (Nat × α)) (k k' : Nat) (v : α)
    (h : k' ≠ k) :
    assocLookup (assocInsert l k v) k' = assocLookup l k' := by
  have h2 : (k == k') = false := by simp; omega
  simp only [assocLookup, assocInsert, List.find?_cons, h2]
  rw [find?_filter_ne l k k' h]

theorem assocLookup_erase_self {α : Type} (l : List (Nat × α)) (k : Nat) :
    assocLookup (assocErase l k) k = none := by
  simp only [assocLookup, assocErase]
  rw [List.find?_eq_none.mpr]
  intro p hp
  have := List.of_mem_filter hp
  simpa using this

theorem assocLookup_erase_ne {α : Type} (l : List (Nat × α)) (k k' : Nat)
    (h : k' ≠ k) :
    assocLookup (assocErase l k) k' = assocLookup l k' := by
  simp only [assocLookup, assocErase]
  rw [find?_filter_ne l k k' h]

theorem assocLookup_isSome_insert {α : Type} (l : List (Nat × α)) (k k' : Nat) (v : α) :
    (assocLookup (assocInsert l k v) k').isSome =
      ((assocLookup l k').isSome || (k' == k)) := by
  by_cases h : k' = k
  · subst h
    simp [assocLookup_insert_self]
  · simp [assocLookup_insert_ne l k k' v h, h]

theorem debounceTask_reuse (env : DbEnv) (obj name : Nat) (args : List Nat) (wait : Nat)
    (s : DbState) (bl : List (Nat × PendingDebounce)) (pd : PendingDebounce)
    (hm : env.hasMethod obj name = true) (hd : env.isDestroyed obj = false)
    (hb : assocLookup s.blobs obj = some bl) (he : assocLookup bl name = some pd) :
    debounceTask env obj name args wait s = .ok
      { s with
        blobs := assocInsert s.blobs obj
          (assocInsert bl name ⟨pd.debouncedTask, s.nextId⟩),
        timers := (s.nextId, ⟨obj, pd.debouncedTask, name, args, wait⟩) ::
          s.timers.filter
            (fun p => !(p.2.owner == obj && p.2.wrapperId == pd.debouncedTask)),
        nextId := s.nextId + 1 } := by
  simp [debounceTask, hm, hd, hb, he, Ember.debounce]

theorem debounceTask_fresh_blob (env : DbEnv) (obj name : Nat) (args : List Nat)
    (wait : Nat) (s : DbState) (bl : List (Nat × PendingDebounce))
    (hm : env.hasMethod obj name = true) (hd : env.isDestroyed obj = false)
    (hb : assocLookup s.blobs obj = some bl) (he : assocLookup bl name = none) :
    debounceTask env obj name args wait s = .ok
      { s with
        blobs := assocInsert s.blobs obj
          (assocInsert bl name ⟨s.nextId, s.nextId + 1⟩),
        timers := (s.nextId + 1, ⟨obj, s.nextId, name, args, wait⟩) ::
          s.timers.filter
            (fun p => !(p.2.owner == obj && p.2.wrapperId == s.nextId)),
        nextId := s.nextId + 2 } := by
  simp [debounceTask, hm, hd, hb, he, Ember.debounce]

theorem debounceTask_fresh_noblob (env : DbEnv) (obj name : Nat) (args : List Nat)
    (wait : Nat) (s : DbState)
    (hm : env.hasMethod obj name = true) (hd : env.isDestroyed obj = false)
    (hb : assocLookup s.blobs obj = none) :
    debounceTask env obj name args wait s = .ok
      { s with
        blobs := assocInsert (assocInsert s.blobs obj []) obj
          [(name, ⟨s.nextId, s.nextId + 1⟩)],
        disposables := obj :: s.disposables,
        timers := (s.nextId + 1, ⟨obj, s.nextId, name, args, wait⟩) ::
          s.timers.filter
            (fun p => !(p.2.owner == obj && p.2.wrapperId == s.nextId)),
        nextId := s.nextId + 2 } := by
  simp only [debounceTask, hm, hd, hb]
  simp [Ember.debounce, assocLookup, assocInsert]

/-- C2: re-registering an already-pending `(owner, name)` debounce reuses
the stored wrapper function unchanged, while the stored cancellation token
is unconditionally replaced by the (fresh) token returned from the new
scheduling call. -/
theorem debounce_rearm_reuses_wrapper (env : DbEnv) (obj name : Nat) (args : List Nat)
    (wait : Nat) (s : DbState) (bl : List (Nat × PendingDebounce)) (pd : PendingDebounce)
    (hm : env.hasMethod obj name = true) (hd : env.isDestroyed obj = false)
    (hb : assocLookup s.blobs obj = some bl) (he : assocLookup bl name = some pd)
    (hc : pd.cancelId < s.nextId) :
    ∃ s', debounceTask env obj name args wait s = .ok s' ∧
      lookupEntry s' obj name =
        some ⟨pd.debouncedTask, (Ember.debounce obj pd.debouncedTask name args wait s).1⟩ ∧
      (Ember.debounce obj pd.debouncedTask name args wait s).1 ≠ pd.cancelId := by
  refine ⟨_, debounceTask_reuse env obj name args wait s bl pd hm hd hb he, ?_, ?_⟩
  · simp [lookupEntry, Ember.debounce, assocLookup_insert_self]
  · simp only [Ember.debounce]
    omega

/-- Environment in which every owner has every method and none is
destroyed; used by concrete witnesses. -/
def envAll : DbEnv := ⟨fun _ _ => true, fun _ => false⟩

/-- Concrete state with one pending debounce for owner 0, task 1. -/
def sOne : DbState := debounceStep envAll 0 1 [10] 300 dbInit

theorem debounce_rearm_reuses_wrapper_witness :
    ∃ s', debounceTask envAll 0 1 [20] 300 sOne = .ok s' ∧
      lookupEntry s' 0 1 =
        some ⟨(0 : Nat), (Ember.debounce 0 0 1 [20] 300 sOne).1⟩ ∧
      (Ember.debounce 0 0 1 [20] 300 sOne).1 ≠ 1 :=
  debounce_rearm_reuses_wrapper envAll 0 1 [20] 300 sOne
    [(1, ⟨0, 1⟩)] ⟨0, 1⟩ rfl rfl (by decide) (by decide) (by decide)

theorem cancelDebounce_of_none (obj name : Nat) (s : DbState)
    (h : lookupEntry s obj name = none) : cancelDebounce obj name s = s := by
  unfold cancelDebounce
  cases hb : assocLookup s.blobs obj with
  | none => rfl
  | some bl =>
    have he : assocLookup bl name = none := by
      unfold lookupEntry at h
      rw [hb] at h
      exact h
    simp [he]

theorem cancelDebounce_some (obj name : Nat) (s : DbState)
    (bl : List (Nat × PendingDebounce)) (pd : PendingDebounce)
    (hb : assocLookup s.blobs obj = some bl) (he : assocLookup bl name = some pd) :
    cancelDebounce obj name s =
      { s with
        blobs := assocInsert s.blobs obj (assocErase bl name),
        timers := s.timers.filter (fun p => p.1 != pd.cancelId) } := by
  simp [cancelDebounce, hb, he, Ember.cancel]

theorem timersStoredB_spec (s : DbState) (h : timersStoredB s = true) :
    ∀ p ∈ s.timers, ∃ bl pd, assocLookup s.blobs p.2.owner = some bl ∧
      assocLookup bl p.2.wrapperName = some pd ∧ pd.cancelId = p.1 ∧
      pd.debouncedTask = p.2.wrapperId := by
  intro p hp
  have hall := (List.all_eq_true.mp h) p hp
  cases hb : assocLookup s.blobs p.2.owner with
  | none => rw [hb] at hall; cases hall
  | some bl =>
    rw [hb] at hall
    have hall2 : (match assocLookup bl p.2.wrapperName with
        | none => false
        | some pd => pd.cancelId == p.1 && pd.debouncedTask == p.2.wrapperId) = true := hall
    cases he : assocLookup bl p.2.wrapperName with
    | none => rw [he] at hall2; cases hall2
    | some pd =>
      rw [he] at hall2
      simp only [Bool.and_eq_true, beq_iff_eq] at hall2
      exact ⟨bl, pd, rfl, he, hall2.1, hall2.2⟩

/-- C3: `cancelDebounce` is a no-op when no blob or entry exists for the
pair, otherwise removes the entry and cancels the stored token; it is
total (never raises), idempotent, and leaves no pending timer for the
pair. -/
theorem cancelDebounce_spec (obj name : Nat) (s : DbState)
    (hInv : timersStoredB s = true) :
    (lookupEntry s obj name = none → cancelDebounce obj name s = s) ∧
    lookupEntry (cancelDebounce obj name s) obj name = none ∧
    (∀ p ∈ (cancelDebounce obj name s).timers,
      ¬(p.2.owner = obj ∧ p.2.wrapperName = name)) ∧
    cancelDebounce obj name (cancelDebounce obj name s) = cancelDebounce obj name s := by
  by_cases hno : lookupEntry s obj name = none
  · have hs : cancelDebounce obj name s = s := cancelDebounce_of_none obj name s hno
    refine ⟨fun _ => hs, by rw [hs]; exact hno, ?_, by rw [hs, hs]⟩
    rw [hs]
    rintro p hp ⟨ho, hn⟩
    obtain ⟨bl, pd, hb, he, _, _⟩ := timersStoredB_spec s hInv p hp
    rw [ho] at hb
    rw [hn] at he
    unfold lookupEntry at hno
    rw [hb] at hno
    have hno2 : assocLookup bl name = none := hno
    rw [he] at hno2
    cases hno2
  · obtain ⟨pd, hpd⟩ := Option.ne_none_iff_exists'.mp hno
    unfold lookupEntry at hpd
    cases hb : assocLookup s.blobs obj with
    | none => rw [hb] at hpd; cases hpd
    | some bl =>
      rw [hb] at hpd
      have hpd2 : assocLookup bl name = some pd := hpd
      have hc := cancelDebounce_some obj name s bl pd hb hpd2
      have hlook : lookupEntry (cancelDebounce obj name s) obj name = none := by
        rw [hc]
        unfold lookupEntry
        simp [assocLookup_insert_self, assocLookup_erase_self]
      refine ⟨fun hcontra => absurd hcontra hno, hlook, ?_, ?_⟩
      · rw [hc]
        rintro p hp ⟨ho, hn⟩
        have hmem := List.mem_of_mem_filter hp
        have hkey := List.of_mem_filter hp
        obtain ⟨bl2, pd2, hb2, he2, hcid, _⟩ := timersStoredB_spec s hInv p hmem
        rw [ho] at hb2
        rw [hn] at he2
        rw [hb] at hb2
        injection hb2 with hbl2
        rw [← hbl2] at he2
        rw [hpd2] at he2
        injection he2 with hpdeq
        rw [← hpdeq] at hcid
        simp [hcid] at hkey
      · exact cancelDebounce_of_none obj name (cancelDebounce obj name s) hlook

theorem cancelDebounce_spec_witness :
    (lookupEntry sOne 0 1 = none → cancelDebounce 0 1 sOne = sOne) ∧
    lookupEntry (cancelDebounce 0 1 sOne) 0 1 = none ∧
    (∀ p ∈ (cancelDebounce 0 1 sOne).timers,
      ¬(p.2.owner = 0 ∧ p.2.wrapperName = 1)) ∧
    cancelDebounce 0 1 (cancelDebounce 0 1 sOne) = cancelDebounce 0 1 sOne :=
  cancelDebounce_spec 0 1 sOne (by decide)

theorem assocLookup_mem {α : Type} (l : List (Nat × α)) (k : Nat) (v : α)
    (h : assocLookup l k = some v) : (k, v) ∈ l := by
  unfold assocLookup at h
  cases hf : l.find? (fun p => p.1 == k) with
  | none => rw [hf] at h; cases h
  | some q =>
    rw [hf] at h
    injection h with hv
    have hmem := List.mem_of_find?_eq_some hf
    have hpred := List.find?_some hf
    simp only [beq_iff_eq] at hpred
    cases q with
    | mk q1 q2 =>
      simp only at hpred hv
      rw [← hpred, ← hv]
      exact hmem

theorem mem_foldl_cancel (l : List Nat) (ts : List (Nat × Timer)) (p : Nat × Timer) :
    p ∈ l.foldl (fun acc cid => acc.filter (fun q => q.1 != cid)) ts ↔
      p ∈ ts ∧ ∀ cid ∈ l, p.1 ≠ cid := by
  induction l generalizing ts with
  | nil => simp
  | cons c l ih =>
    simp only [List.foldl_cons]
    rw [ih]
    constructor
    · rintro ⟨hmem, hall⟩
      have h1 := List.mem_of_mem_filter hmem
      have h2 := List.of_mem_filter hmem
      simp only [bne_iff_ne, ne_eq] at h2
      refine ⟨h1, ?_⟩
      intro cid hc
      rcases List.mem_cons.mp hc with h | h
      · rw [h]; exact h2
      · exact hall cid h
    · rintro ⟨hmem, hall⟩
      refine ⟨List.mem_filter.mpr ⟨hmem, ?_⟩, fun cid hc => hall cid (List.mem_cons_of_mem _ hc)⟩
      simp only [bne_iff_ne, ne_eq, decide_eq_true_eq]
      exact hall c (List.mem_cons_self c l)

/-- C4 (amended): running the debounce teardown closure cancels the stored
token of every entry in the owner's blob, leaving no pending timer for
that owner, and is a safe no-op when the blob is absent or has zero
entries; it does not clear the blob — the entries remain stored. -/
theorem debounce_teardown_spec (obj : Nat) (s : DbState)
    (hInv : timersStoredB s = true) :
    (getDebouncesDisposable obj s).blobs = s.blobs ∧
    (getDebouncesDisposable obj s).invocations = s.invocations ∧
    (∀ p ∈ (getDebouncesDisposable obj s).timers, p.2.owner ≠ obj) ∧
    ((assocLookup s.blobs obj = none ∨ assocLookup s.blobs obj = some []) →
      getDebouncesDisposable obj s = s) := by
  cases hb : assocLookup s.blobs obj with
  | none =>
    have hs : getDebouncesDisposable obj s = s := by
      unfold getDebouncesDisposable
      rw [hb]
    refine ⟨by rw [hs], by rw [hs], ?_, fun _ => hs⟩
    rw [hs]
    intro p hp ho
    obtain ⟨bl, pd, hb2, _, _, _⟩ := timersStoredB_spec s hInv p hp
    rw [ho, hb] at hb2
    cases hb2
  | some debounces =>
    by_cases hemp : debounces.isEmpty
    · have hdeb : debounces = [] := List.isEmpty_iff.mp hemp
      have hs : getDebouncesDisposable obj s = s := by
        unfold getDebouncesDisposable
        rw [hb]
        simp [hemp]
      refine ⟨by rw [hs], by rw [hs], ?_, fun _ => hs⟩
      rw [hs]
      intro p hp ho
      obtain ⟨bl, pd, hb2, he2, _, _⟩ := timersStoredB_spec s hInv p hp
      rw [ho, hb] at hb2
      injection hb2 with hbl
      rw [← hbl, hdeb] at he2
      cases he2
    · have hs : getDebouncesDisposable obj s =
          { s with
            timers := (debounces.map (fun q => q.2.cancelId)).foldl
              (fun ts cid => ts.filter (fun p => p.1 != cid)) s.timers } := by
        unfold getDebouncesDisposable
        rw [hb]
        simp [hemp]
      refine ⟨by rw [hs], by rw [hs], ?_, ?_⟩
      · rw [hs]
        intro p hp ho
        obtain ⟨hmem, hall⟩ := (mem_foldl_cancel _ _ _).mp hp
        obtain ⟨bl, pd, hb2, he2, hcid, _⟩ := timersStoredB_spec s hInv p hmem
        rw [ho, hb] at hb2
        injection hb2 with hbl
        rw [← hbl] at he2
        have hqmem : (p.2.wrapperName, pd) ∈ debounces := assocLookup_mem _ _ _ he2
        have hcmem : pd.cancelId ∈ debounces.map (fun q => q.2.cancelId) :=
          List.mem_map_of_mem (fun q => q.2.cancelId) hqmem
        exact hall pd.cancelId hcmem hcid.symm
      · rintro (h | h)
        · cases h
        · injection h with hbl
          rw [hbl] at hemp
          simp at hemp

theorem debounce_teardown_spec_witness :
    (getDebouncesDisposable 0 sOne).blobs = sOne.blobs ∧
    (getDebouncesDisposable 0 sOne).invocations = sOne.invocations ∧
    (∀ p ∈ (getDebouncesDisposable 0 sOne).timers, p.2.owner ≠ 0) ∧
    ((assocLookup sOne.blobs 0 = none ∨ assocLookup sOne.blobs 0 = some []) →
      getDebouncesDisposable 0 sOne = sOne) :=
  debounce_teardown_spec 0 sOne (by decide)

/-- C4 counterexample: on a state with one pending debounce for owner 0
under task name 1, running the teardown closure cancels the pending timer
but the blob still holds the entry afterwards — it is not cleared, so the
claim's "then clears the blob, leaving it with no entries" fails. -/
theorem debounce_teardown_cex :
    (getDebouncesDisposable 0 sOne).timers = [] ∧
    ¬ lookupEntry (getDebouncesDisposable 0 sOne) 0 1 = none := by decide

theorem nat_beq_comm (a b : Nat) : (a == b) = (b == a) := by
  by_cases h : a = b
  · rw [h]
  · have h2 : b ≠ a := fun hc => h hc.symm
    simp [h, h2]

theorem assocLookup_isSome_insert_mem {α : Type} (l : List (Nat × α)) (k k' : Nat)
    (v w : α) (h : assocLookup l k = some w) :
    (assocLookup (assocInsert l k v) k').isSome = (assocLookup l k').isSome := by
  rw [assocLookup_isSome_insert]
  by_cases hk : k' = k
  · subst hk
    rw [h]
    simp
  · simp [hk]

theorem addEventListener_ok_blob (env : EvEnv) (obj e eventName cb : Nat)
    (options : Option Nat) (s : EvState) (l : List Slot)
    (he : env.isElement e = true) (hb : assocLookup s.lists obj = some l) :
    addEventListener env obj (some e) eventName cb options s = .ok
      { s with
        nextCb := s.nextCb + 1,
        extCalls := s.extCalls ++
          [ExtCall.addL e eventName s.nextCb (if s.passiveSupported then options else none)],
        lists := assocInsert s.lists obj
          (l ++ [Slot.v e, Slot.v eventName, Slot.v s.nextCb, Slot.v cb,
                 Slot.o (if s.passiveSupported then options else none)]) } := by
  simp [addEventListener, getEventListeners, he, hb]

theorem addEventListener_ok_noblob (env : EvEnv) (obj e eventName cb : Nat)
    (options : Option Nat) (s : EvState)
    (he : env.isElement e = true) (hb : assocLookup s.lists obj = none) :
    addEventListener env obj (some e) eventName cb options s = .ok
      { s with
        nextCb := s.nextCb + 1,
        evDisposables := obj :: s.evDisposables,
        extCalls := s.extCalls ++
          [ExtCall.addL e eventName s.nextCb (if s.passiveSupported then options else none)],
        lists := assocInsert (assocInsert s.lists obj []) obj
          [Slot.v e, Slot.v eventName, Slot.v s.nextCb, Slot.v cb,
           Slot.o (if s.passiveSupported then options else none)] } := by
  simp only [addEventListener, getEventListeners, he, hb]
  simp

theorem removeEventListener_ok_noblob (env : EvEnv) (obj e eventName cb : Nat)
    (options : Option Nat) (s : EvState)
    (he : env.isElement e = true) (hb : assocLookup s.lists obj = none) :
    removeEventListener env obj (some e) eventName cb options s = .ok
      { s with
        evDisposables := obj :: s.evDisposables,
        lists := assocInsert s.lists obj [] } := by
  simp only [removeEventListener, getEventListeners, he, hb]
  simp

theorem removeEventListener_ok_none (env : EvEnv) (obj e eventName cb : Nat)
    (options : Option Nat) (s : EvState) (l : List Slot)
    (he : env.isElement e = true) (hb : assocLookup s.lists obj = some l)
    (hf : findListener l e eventName cb 0 = none) :
    removeEventListener env obj (some e) eventName cb options s = .ok s := by
  simp only [removeEventListener, getEventListeners, he, hb, hf]
  cases hl : l.length with
  | zero => simp
  | succ m => simp [hl, hf]

theorem removeEventListener_ok_found (env : EvEnv) (obj e eventName cb : Nat)
    (options : Option Nat) (s : EvState) (l : List Slot) (i : Nat)
    (he : env.isElement e = true) (hb : assocLookup s.lists obj = some l)
    (hf : findListener l e eventName cb 0 = some i) :
    removeEventListener env obj (some e) eventName cb options s = .ok
      { s with
        extCalls := s.extCalls ++
          [ExtCall.removeL e eventName (l.get? (i + 2))
            (if s.passiveSupported then options else none)],
        lists := assocInsert s.lists obj (l.take i ++ l.drop (i + 5)) } := by
  have hlen : l.length ≠ 0 := by
    intro hz
    have hl : l = [] := List.length_eq_zero.mp hz
    rw [hl] at hf
    unfold findListener at hf
    simp at hf
  simp only [removeEventListener, getEventListeners, he, hb, hf]
  simp [hlen]

theorem dbBlobExists_step (env : DbEnv) (op : DbOp) (s : DbState) (obj : Nat) :
    dbBlobExists (dbStep env op s) obj =
      (dbBlobExists s obj || DbOp.creates env obj op) := by
  cases op with
  | sched o n args wait =>
    simp only [dbStep, DbOp.creates]
    by_cases hm : env.hasMethod o n = true
    · by_cases hd : env.isDestroyed o = true
      · have hstep : debounceStep env o n args wait s = s := by
          unfold debounceStep debounceTask
          simp [hm, hd]
        rw [hstep]
        simp [hd]
      · have hd' : env.isDestroyed o = false := Bool.eq_false_iff.mpr hd
        have hcr : (o == obj && env.hasMethod o n && !env.isDestroyed o) = (obj == o) := by
          simp [hm, hd', nat_beq_comm o obj]
        rw [hcr]
        cases hb : assocLookup s.blobs o with
        | some bl =>
          have hsome : (assocLookup s.blobs o).isSome = true := by rw [hb]; rfl
          cases he : assocLookup bl n with
          | some pd =>
            simp only [debounceStep,
              debounceTask_reuse env o n args wait s bl pd hm hd' hb he]
            simp only [dbBlobExists]
            rw [assocLookup_isSome_insert]
          | none =>
            simp only [debounceStep,
              debounceTask_fresh_blob env o n args wait s bl hm hd' hb he]
            simp only [dbBlobExists]
            rw [assocLookup_isSome_insert]
        | none =>
          simp only [debounceStep,
            debounceTask_fresh_noblob env o n args wait s hm hd' hb]
          simp only [dbBlobExists]
          rw [assocLookup_isSome_insert, assocLookup_isSome_insert]
          by_cases ho : obj = o
          · subst ho
            simp
          · simp [ho]
    · have hm' : env.hasMethod o n = false := Bool.eq_false_iff.mpr hm
      have hstep : debounceStep env o n args wait s = s := by
        unfold debounceStep debounceTask
        simp [hm']
      rw [hstep]
      simp [hm']
  | cancelOp o n =>
    simp only [dbStep, DbOp.creates, Bool.or_false]
    cases hb : assocLookup s.blobs o with
    | none =>
      have hstep : cancelDebounce o n s = s := by
        unfold cancelDebounce
        rw [hb]
      rw [hstep]
    | some bl =>
      cases he : assocLookup bl n with
      | none =>
        have hstep : cancelDebounce o n s = s := cancelDebounce_of_none o n s (by
          unfold lookupEntry
          rw [hb]
          exact he)
        rw [hstep]
      | some pd =>
        rw [cancelDebounce_some o n s bl pd hb he]
        simp only [dbBlobExists]
        exact assocLookup_isSome_insert_mem s.blobs o obj _ bl hb
  | fire cid =>
    simp only [dbStep, DbOp.creates, Bool.or_false]
    unfold fireTimer
    cases ht : assocLookup s.timers cid with
    | none => rfl
    | some t =>
      cases hb : assocLookup s.blobs t.owner with
      | none => simp [hb, dbBlobExists]
      | some bl =>
        simp only [hb, dbBlobExists]
        exact assocLookup_isSome_insert_mem s.blobs t.owner obj _ bl hb
  | dispose o =>
    simp only [dbStep, DbOp.creates, Bool.or_false]
    unfold getDebouncesDisposable
    cases hb : assocLookup s.blobs o with
    | none => rfl
    | some bl =>
      by_cases hemp : bl.isEmpty
      · simp [hemp]
      · simp [hemp, dbBlobExists]

theorem dbBlobExists_run (env : DbEnv) (tr : List DbOp) (obj : Nat) :
    ∀ s, dbBlobExists (dbRun env tr s) obj =
      (dbBlobExists s obj || tr.any (DbOp.creates env obj)) := by
  induction tr with
  | nil =>
    intro s
    simp [dbRun]
  | cons op tr ih =>
    intro s
    have hrun : dbRun env (op :: tr) s = dbRun env tr (dbStep env op s) := rfl
    rw [hrun, ih (dbStep env op s), dbBlobExists_step]
    simp [Bool.or_assoc]

theorem evBlobExists_step (env : EvEnv) (op : EvOp) (s : EvState) (obj : Nat) :
    evBlobExists (evStep env op s) obj =
      (evBlobExists s obj || EvOp.creates env obj op) := by
  cases op with
  | add o element eventName cb options =>
    cases element with
    | none => simp [evStep, addEventListener, EvOp.creates]
    | some e =>
      by_cases he : env.isElement e = true
      · have hcr : EvOp.creates env obj (EvOp.add o (some e) eventName cb options) =
            (obj == o) := by
          simp [EvOp.creates, he, nat_beq_comm o obj]
        rw [hcr]
        cases hb : assocLookup s.lists o with
        | some l =>
          have hsome : (assocLookup s.lists o).isSome = true := by rw [hb]; rfl
          simp only [evStep,
            addEventListener_ok_blob env o e eventName cb options s l he hb]
          simp only [evBlobExists]
          rw [assocLookup_isSome_insert]
        | none =>
          simp only [evStep,
            addEventListener_ok_noblob env o e eventName cb options s he hb]
          simp only [evBlobExists]
          rw [assocLookup_isSome_insert, assocLookup_isSome_insert]
          by_cases ho : obj = o
          · subst ho
            simp
          · simp [ho]
      · have he' : env.isElement e = false := Bool.eq_false_iff.mpr he
        have hstep : evStep env (EvOp.add o (some e) eventName cb options) s = s := by
          simp only [evStep, addEventListener, he']
          simp
        rw [hstep]
        simp [EvOp.creates, he']
  | removeOp o element eventName cb options =>
    cases element with
    | none => simp [evStep, removeEventListener, EvOp.creates]
    | some e =>
      by_cases he : env.isElement e = true
      · have hcr : EvOp.creates env obj (EvOp.removeOp o (some e) eventName cb options) =
            (obj == o) := by
          simp [EvOp.creates, he, nat_beq_comm o obj]
        rw [hcr]
        cases hb : assocLookup s.lists o with
        | some l =>
          have hsome : (assocLookup s.lists o).isSome = true := by rw [hb]; rfl
          cases hf : findListener l e eventName cb 0 with
          | none =>
            simp only [evStep,
              removeEventListener_ok_none env o e eventName cb options s l he hb hf]
            by_cases ho : obj = o
            · subst ho
              simp [evBlobExists, hsome]
            · simp [ho]
          | some i =>
            simp only [evStep,
              removeEventListener_ok_found env o e eventName cb options s l i he hb hf]
            simp only [evBlobExists]
            rw [assocLookup_isSome_insert]
        | none =>
          simp only [evStep,
            removeEventListener_ok_noblob env o e eventName cb options s he hb]
          simp only [evBlobExists]
          rw [assocLookup_isSome_insert]
      · have he' : env.isElement e = false := Bool.eq_false_iff.mpr he
        have hstep : evStep env (EvOp.removeOp o (some e) eventName cb options) s = s := by
          simp only [evStep, removeEventListener, he']
          simp
        rw [hstep]
        simp [EvOp.creates, he']
  | dispose o =>
    simp only [evStep, EvOp.creates, Bool.or_false]
    unfold getEventListenersDisposable
    by_cases ht : o ∈ s.evTorn
    · simp [ht]
    · simp only [ht, if_false]
      cases hb : assocLookup s.lists o with
      | none => rfl
      | some l => simp [hb, evBlobExists]

theorem evBlobExists_run (env : EvEnv) (tr : List EvOp) (obj : Nat) :
    ∀ s, evBlobExists (evRun env tr s) obj =
      (evBlobExists s obj || tr.any (EvOp.creates env obj)) := by
  induction tr with
  | nil =>
    intro s
    simp [evRun]
  | cons op tr ih =>
    intro s
    have hrun : evRun env (op :: tr) s = evRun env tr (evStep env op s) := rfl
    rw [hrun, ih (evStep env op s), evBlobExists_step]
    simp [Bool.or_assoc]

/-- C5 (amended): starting from the initial state, a per-owner blob exists
in a subsystem's registry exactly when the trace so far contains at least
one call that reaches the registry's lazy get-or-create for that owner —
for debounce, a `debounceTask` call passing its asserts; for events, an
`addEventListener` *or* `removeEventListener` call passing its element
assert.  Disposal does not remove the blob. -/
theorem blob_exists_iff_touched (envD : DbEnv) (envE : EvEnv) (trD : List DbOp)
    (trE : List EvOp) (ps : Bool) (obj : Nat) :
    dbBlobExists (dbRun envD trD dbInit) obj = trD.any (DbOp.creates envD obj) ∧
    evBlobExists (evRun envE trE (evInit ps)) obj = trE.any (EvOp.creates envE obj) := by
  constructor
  · rw [dbBlobExists_run]
    rfl
  · rw [evBlobExists_run]
    rfl

/-- Environment in which every value is an element; used by concrete
witnesses and counterexamples. -/
def envElemAll : EvEnv := ⟨fun _ => true⟩

/-- C5 counterexample: a single `removeEventListener` call for an owner
with no subscriptions — a trace containing no registration at all —
nevertheless creates the owner's blob, so a blob can exist although no
registration has occurred since the last disposal. -/
theorem blob_created_without_registration_cex :
    evBlobExists (evRun envElemAll [EvOp.removeOp 0 (some 7) 1 2 none] (evInit true)) 0 = true ∧
    ([EvOp.removeOp 0 (some 7) 1 2 none].any EvOp.isRegistration) = false := by decide

theorem fireTimer_some (cid : Nat) (s : DbState) (t : Timer)
    (bl : List (Nat × PendingDebounce))
    (ht : assocLookup s.timers cid = some t)
    (hb : assocLookup s.blobs t.owner = some bl) :
    fireTimer cid s =
      { s with
        timers := assocErase s.timers cid,
        blobs := assocInsert s.blobs t.owner (assocErase bl t.wrapperName),
        invocations := s.invocations ++ [(t.owner, t.wrapperName, t.args)] } := by
  simp [fireTimer, ht, hb]

/-- C8: when the timer service finally invokes the debounce wrapper, the
wrapper deletes the entry for its task name from the blob and then invokes
the owner's task with the delivered arguments; a `debounceTask` call for
the same name issued after that deletion (in particular by the task itself
while running) therefore builds a fresh entry with a new wrapper instead
of colliding with the finalized one. -/
theorem wrapper_deletes_entry_before_invoking (env : DbEnv) (obj name cid : Nat)
    (args args2 : List Nat) (wait wait2 : Nat) (s : DbState)
    (bl : List (Nat × PendingDebounce)) (pd : PendingDebounce)
    (hm : env.hasMethod obj name = true) (hd : env.isDestroyed obj = false)
    (hb : assocLookup s.blobs obj = some bl) (he : assocLookup bl name = some pd)
    (ht : assocLookup s.timers cid = some ⟨obj, pd.debouncedTask, name, args, wait⟩)
    (hw : pd.debouncedTask < s.nextId) :
    lookupEntry (fireTimer cid s) obj name = none ∧
    (fireTimer cid s).invocations = s.invocations ++ [(obj, name, args)] ∧
    ∃ s2 pd2, debounceTask env obj name args2 wait2 (fireTimer cid s) = .ok s2 ∧
      lookupEntry s2 obj name = some pd2 ∧ pd2.debouncedTask ≠ pd.debouncedTask := by
  have hfire := fireTimer_some cid s ⟨obj, pd.debouncedTask, name, args, wait⟩ bl ht hb
  have hbl1 : assocLookup (fireTimer cid s).blobs obj = some (assocErase bl name) := by
    rw [hfire]
    exact assocLookup_insert_self s.blobs obj (assocErase bl name)
  have hent : assocLookup (assocErase bl name) name = none :=
    assocLookup_erase_self bl name
  refine ⟨?_, ?_, ?_⟩
  · unfold lookupEntry
    rw [hbl1]
    exact hent
  · rw [hfire]
  · have hok := debounceTask_fresh_blob env obj name args2 wait2 (fireTimer cid s)
      (assocErase bl name) hm hd hbl1 hent
    refine ⟨_, ⟨(fireTimer cid s).nextId, (fireTimer cid s).nextId + 1⟩, hok, ?_, ?_⟩
    · unfold lookupEntry
      simp [assocLookup_insert_self]
    · have hnx : (fireTimer cid s).nextId = s.nextId := by rw [hfire]
      rw [hnx]
      simp only
      omega

theorem wrapper_deletes_entry_before_invoking_witness :
    lookupEntry (fireTimer 1 sOne) 0 1 = none ∧
    (fireTimer 1 sOne).invocations = sOne.invocations ++ [(0, 1, [10])] ∧
    ∃ s2 pd2, debounceTask envAll 0 1 [42] 7 (fireTimer 1 sOne) = .ok s2 ∧
      lookupEntry s2 0 1 = some pd2 ∧ pd2.debouncedTask ≠ 0 :=
  wrapper_deletes_entry_before_invoking envAll 0 1 1 [10] [42] 300 7 sOne
    [(1, ⟨0, 1⟩)] ⟨0, 1⟩ rfl rfl (by decide) (by decide) (by decide) (by decide)

/-- C9: each programmer-error precondition is signalled immediately by the
leading asserts and leaves the state untouched: `debounceTask` fails when
`obj[name]` is not a function or the owner is destroyed (the non-string
name case is excluded by typing in this embedding), and both
`addEventListener` and `removeEventListener` fail when the element is
missing or not an actual `Element`. -/
theorem precondition_asserts (envD : DbEnv) (envE : EvEnv) (obj name e eventName cb : Nat)
    (args : List Nat) (wait : Nat) (options : Option Nat) (s : DbState) (t : EvState) :
    (envD.hasMethod obj name = false →
      debounceTask envD obj name args wait s = .error .invalidTask ∧
      debounceStep envD obj name args wait s = s) ∧
    (envD.hasMethod obj name = true → envD.isDestroyed obj = true →
      debounceTask envD obj name args wait s = .error .invalidOwner ∧
      debounceStep envD obj name args wait s = s) ∧
    (addEventListener envE obj none eventName cb options t = .error .missingElement ∧
      evStep envE (EvOp.add obj none eventName cb options) t = t) ∧
    (removeEventListener envE obj none eventName cb options t = .error .missingElement ∧
      evStep envE (EvOp.removeOp obj none eventName cb options) t = t) ∧
    (envE.isElement e = false →
      addEventListener envE obj (some e) eventName cb options t = .error .notAnElement ∧
      evStep envE (EvOp.add obj (some e) eventName cb options) t = t) ∧
    (envE.isElement e = false →
      removeEventListener envE obj (some e) eventName cb options t = .error .notAnElement ∧
      evStep envE (EvOp.removeOp obj (some e) eventName cb options) t = t) := by
  refine ⟨?_, ?_, ?_, ?_, ?_, ?_⟩
  · intro hm
    constructor
    · simp [debounceTask, hm]
    · simp [debounceStep, debounceTask, hm]
  · intro hm hd
    constructor
    · simp [debounceTask, hm, hd]
    · simp [debounceStep, debounceTask, hm, hd]
  · constructor
    · rfl
    · rfl
  · constructor
    · rfl
    · rfl
  · intro he
    constructor
    · simp [addEventListener, he]
    · simp [evStep, addEventListener, he]
  · intro he
    constructor
    · simp [removeEventListener, he]
    · simp [evStep, removeEventListener, he]

/-- Environment in which no owner has any method. -/
def envNoMethod : DbEnv := ⟨fun _ _ => false, fun _ => false⟩

/-- Environment in which every owner is destroyed. -/
def envDestroyed : DbEnv := ⟨fun _ _ => true, fun _ => true⟩

/-- Environment in which no value is an element. -/
def envNoElem : EvEnv := ⟨fun _ => false⟩

theorem precondition_asserts_witness :
    debounceTask envNoMethod 0 1 [] 5 dbInit = .error .invalidTask ∧
    debounceTask envDestroyed 0 1 [] 5 dbInit = .error .invalidOwner ∧
    addEventListener envNoElem 0 none 1 2 none (evInit true) = .error .missingElement ∧
    removeEventListener envNoElem 0 (some 3) 1 2 none (evInit true) = .error .notAnElement :=
  ⟨((precondition_asserts envNoMethod envNoElem 0 1 3 1 2 [] 5 none dbInit (evInit true)).1
      rfl).1,
   ((precondition_asserts envDestroyed envNoElem 0 1 3 1 2 [] 5 none dbInit (evInit true)).2.1
      rfl rfl).1,
   ((precondition_asserts envDestroyed envNoElem 0 1 3 1 2 [] 5 none dbInit (evInit true)).2.2.1).1,
   (((precondition_asserts envDestroyed envNoElem 0 1 3 1 2 [] 5 none dbInit
      (evInit true)).2.2.2.2.2) rfl).1⟩

/-- A burst of `debounceTask(obj, name, argsᵢ, waitᵢ)` calls executed in
order with no timer delivery in between (each call lands before the
previous wait elapses). -/
def runCalls (env : DbEnv) (obj name : Nat) (calls : List (List Nat × Nat))
    (s : DbState) : DbState :=
  calls.foldl (fun st c => debounceStep env obj name c.1 c.2 st) s

/-- Invariant holding after each call of a burst that started in `s0`:
the blob stores one entry for `name` with the stable wrapper `w` and the
latest token `cid`, exactly one timer — the stored one, carrying the most
recent call's arguments `aw` — sits in front of `s0`'s untouched timers,
and nothing has been invoked. -/
def MidInv (s0 : DbState) (obj name w : Nat) (aw : List Nat × Nat)
    (s : DbState) : Prop :=
  ∃ cid bl,
    assocLookup s.blobs obj = some bl ∧
    assocLookup bl name = some ⟨w, cid⟩ ∧
    s.timers = (cid, ⟨obj, w, name, aw.1, aw.2⟩) :: s0.timers ∧
    s.invocations = s0.invocations

theorem filter_keep_of_other_owner (obj w : Nat) (ts : List (Nat × Timer))
    (ht : ∀ p ∈ ts, p.2.owner ≠ obj) :
    ts.filter (fun p => !(p.2.owner == obj && p.2.wrapperId == w)) = ts := by
  rw [List.filter_eq_self]
  intro p hp
  have := ht p hp
  simp [this]

theorem MidInv_establish (env : DbEnv) (s0 : DbState) (obj name : Nat)
    (c : List Nat × Nat)
    (hm : env.hasMethod obj name = true) (hd : env.isDestroyed obj = false)
    (he : lookupEntry s0 obj name = none)
    (ht : ∀ p ∈ s0.timers, p.2.owner ≠ obj) :
    MidInv s0 obj name s0.nextId c (debounceStep env obj name c.1 c.2 s0) := by
  cases hb : assocLookup s0.blobs obj with
  | some bl =>
    have hbe : assocLookup bl name = none := by
      unfold lookupEntry at he
      rw [hb] at he
      exact he
    simp only [debounceStep, debounceTask_fresh_blob env obj name c.1 c.2 s0 bl hm hd hb hbe]
    refine ⟨s0.nextId + 1, _, assocLookup_insert_self _ _ _, assocLookup_insert_self _ _ _, ?_, rfl⟩
    simp only
    rw [filter_keep_of_other_owner obj s0.nextId s0.timers ht]
  | none =>
    simp only [debounceStep, debounceTask_fresh_noblob env obj name c.1 c.2 s0 hm hd hb]
    refine ⟨s0.nextId + 1, _, assocLookup_insert_self _ _ _,
      assocLookup_insert_self [] name _, ?_, rfl⟩
    simp only
    rw [filter_keep_of_other_owner obj s0.nextId s0.timers ht]

theorem MidInv_preserve (env : DbEnv) (s0 : DbState) (obj name w : Nat)
    (aw c : List Nat × Nat) (s : DbState)
    (hm : env.hasMethod obj name = true) (hd : env.isDestroyed obj = false)
    (ht : ∀ p ∈ s0.timers, p.2.owner ≠ obj)
    (h : MidInv s0 obj name w aw s) :
    MidInv s0 obj name w c (debounceStep env obj name c.1 c.2 s) := by
  obtain ⟨cid, bl, hb, hbe, htm, hinv⟩ := h
  simp only [debounceStep, debounceTask_reuse env obj name c.1 c.2 s bl ⟨w, cid⟩ hm hd hb hbe]
  refine ⟨s.nextId, _, assocLookup_insert_self _ _ _, assocLookup_insert_self _ _ _, ?_, hinv⟩
  simp only
  rw [htm]
  rw [List.filter_cons]
  simp only [beq_self_eq_true, Bool.and_self, Bool.not_true]
  rw [filter_keep_of_other_owner obj w s0.timers ht]
  simp

theorem runCalls_MidInv (env : DbEnv) (s0 : DbState) (obj name w : Nat)
    (hm : env.hasMethod obj name = true) (hd : env.isDestroyed obj = false)
    (ht : ∀ p ∈ s0.timers, p.2.owner ≠ obj) :
    ∀ (calls : List (List Nat × Nat)) (aw : List Nat × Nat) (s : DbState),
      MidInv s0 obj name w aw s →
      MidInv s0 obj name w (calls.getLastD aw) (runCalls env obj name calls s) := by
  intro calls
  induction calls with
  | nil =>
    intro aw s h
    simpa [runCalls] using h
  | cons c rest ih =>
    intro aw s h
    have h1 := MidInv_preserve env s0 obj name w aw c s hm hd ht h
    have h2 := ih c (debounceStep env obj name c.1 c.2 s) h1
    have hrun : runCalls env obj name (c :: rest) s =
        runCalls env obj name rest (debounceStep env obj name c.1 c.2 s) := rfl
    rw [hrun, List.getLastD_cons]
    exact h2

/-- C1: a nonempty burst of `debounceTask` calls for the same owner and
task name, starting with no entry or pending timer for that owner and with
no timer delivery in between, leaves exactly one pending timer for the
owner, carrying the arguments of the *last* call; nothing is invoked
during the burst, and delivering that single timer produces exactly one
invocation of `obj[name]`, with the last call's arguments, after which no
timer for the owner remains. -/
theorem debounce_coalescing (env : DbEnv) (obj name : Nat) (c0 : List Nat × Nat)
    (calls : List (List Nat × Nat)) (s0 : DbState)
    (hm : env.hasMethod obj name = true) (hd : env.isDestroyed obj = false)
    (he : lookupEntry s0 obj name = none)
    (ht : ∀ p ∈ s0.timers, p.2.owner ≠ obj) :
    ∃ cid w,
      (runCalls env obj name (c0 :: calls) s0).invocations = s0.invocations ∧
      timersFor (runCalls env obj name (c0 :: calls) s0) obj =
        [(cid, ⟨obj, w, name, (calls.getLastD c0).1, (calls.getLastD c0).2⟩)] ∧
      (fireTimer cid (runCalls env obj name (c0 :: calls) s0)).invocations =
        s0.invocations ++ [(obj, name, (calls.getLastD c0).1)] ∧
      timersFor (fireTimer cid (runCalls env obj name (c0 :: calls) s0)) obj = [] := by
  have h0 := MidInv_establish env s0 obj name c0 hm hd he ht
  have h1 := runCalls_MidInv env s0 obj name s0.nextId hm hd ht calls c0
    (debounceStep env obj name c0.1 c0.2 s0) h0
  have hrun : runCalls env obj name (c0 :: calls) s0 =
      runCalls env obj name calls (debounceStep env obj name c0.1 c0.2 s0) := rfl
  rw [hrun]
  obtain ⟨cid, bl, hb, hbe, htm, hinv⟩ := h1
  set s1 := runCalls env obj name calls (debounceStep env obj name c0.1 c0.2 s0) with hs1
  refine ⟨cid, s0.nextId, hinv, ?_, ?_, ?_⟩
  · unfold timersFor
    rw [htm, List.filter_cons]
    simp only [beq_self_eq_true, if_true]
    rw [List.filter_eq_nil_iff.mpr]
    intro p hp
    simp [ht p hp]
  · have hlook : assocLookup s1.timers cid =
        some ⟨obj, s0.nextId, name, (calls.getLastD c0).1, (calls.getLastD c0).2⟩ := by
      rw [htm]
      simp [assocLookup, List.find?_cons]
    rw [fireTimer_some cid s1 _ bl hlook hb]
    simp only
    rw [hinv]
  · have hlook : assocLookup s1.timers cid =
        some ⟨obj, s0.nextId, name, (calls.getLastD c0).1, (calls.getLastD c0).2⟩ := by
      rw [htm]
      simp [assocLookup, List.find?_cons]
    rw [fireTimer_some cid s1 _ bl hlook hb]
    unfold timersFor
    simp only
    unfold assocErase
    rw [htm, List.filter_cons]
    simp only [bne_self_eq_false, if_false]
    rw [List.filter_eq_nil_iff.mpr]
    intro p hp
    have := List.mem_of_mem_filter hp
    simp [ht p this]

theorem debounce_coalescing_witness :
    ∃ cid w,
      (runCalls envAll 0 1 [([10], 300), ([20], 300)] dbInit).invocations =
        dbInit.invocations ∧
      timersFor (runCalls envAll 0 1 [([10], 300), ([20], 300)] dbInit) 0 =
        [(cid, ⟨0, w, 1, [20], 300⟩)] ∧
      (fireTimer cid (runCalls envAll 0 1 [([10], 300), ([20], 300)] dbInit)).invocations =
        dbInit.invocations ++ [(0, 1, [20])] ∧
      timersFor (fireTimer cid (runCalls envAll 0 1 [([10], 300), ([20], 300)] dbInit)) 0 =
        [] :=
  debounce_coalescing envAll 0 1 ([10], 300) [([20], 300)] dbInit rfl rfl (by decide)
    (by simp [dbInit])

/-- One subscription tuple, the 5-slot record of the flat list in order:
element, event name, dispatch callback, original callback, options. -/
structure Listener where
  element : Nat
  eventName : Nat
  callback : Nat
  originalCallback : Nat
  options : Option Nat
deriving DecidableEq, Repr

/-- The flat array laid out from a list of 5-slot tuples. -/
def flattenListeners : List Listener → List Slot
  | [] => []
  | l :: rest => Slot.v l.element :: Slot.v l.eventName :: Slot.v l.callback ::
      Slot.v l.originalCallback :: Slot.o l.options :: flattenListeners rest

/-- The match condition of the removal scan, at tuple level: element,
event name and *original* callback agree. -/
def matchesL (e n c : Nat) (l : Listener) : Bool :=
  l.element == e && l.eventName == n && l.originalCallback == c

/-- Tuple index of the first matching tuple. -/
def firstMatchIdx (e n c : Nat) : List Listener → Option Nat
  | [] => none
  | l :: rest =>
    if matchesL e n c l then some 0
    else (firstMatchIdx e n c rest).map (fun j => j + 1)

theorem flattenListeners_append (A B : List Listener) :
    flattenListeners (A ++ B) = flattenListeners A ++ flattenListeners B := by
  induction A with
  | nil => rfl
  | cons l A ih => simp [flattenListeners, ih]

theorem flattenListeners_length (L : List Listener) :
    (flattenListeners L).length = 5 * L.length := by
  induction L with
  | nil => rfl
  | cons l L ih =>
    simp [flattenListeners, ih]
    omega

theorem findListener_drop (e n c : Nat) (flat : List Slot) (i : Nat) :
    ∀ j, findListener flat e n c (i + j) =
      (findListener (flat.drop i) e n c j).map (fun k => k + i) := by
  have H : ∀ m j, flat.length - (i + j) ≤ m →
      findListener flat e n c (i + j) =
        (findListener (flat.drop i) e n c j).map (fun k => k + i) := by
    intro m
    induction m with
    | zero =>
      intro j hj
      have h1 : ¬ i + j < flat.length := by omega
      have h2 : ¬ j < (flat.drop i).length := by
        rw [List.length_drop]
        omega
      rw [findListener, dif_neg h1]
      conv_rhs => rw [findListener]
      rw [dif_neg h2]
      rfl
    | succ m ih =>
      intro j hj
      by_cases h1 : i + j < flat.length
      · have h2 : j < (flat.drop i).length := by
          rw [List.length_drop]
          omega
        rw [findListener, dif_pos h1]
        conv_rhs => rw [findListener]
        rw [dif_pos h2]
        have e1 : flat.get? (i + j) = (flat.drop i).get? j := (List.get?_drop flat i j).symm
        have e2 : flat.get? (i + j + 1) = (flat.drop i).get? (j + 1) := by
          have ha : i + j + 1 = i + (j + 1) := by omega
          rw [ha, List.get?_drop]
        have e3 : flat.get? (i + j + 3) = (flat.drop i).get? (j + 3) := by
          have ha : i + j + 3 = i + (j + 3) := by omega
          rw [ha, List.get?_drop]
        rw [e1, e2, e3]
        by_cases hc : (flat.drop i).get? j = some (Slot.v e) ∧
            (flat.drop i).get? (j + 1) = some (Slot.v n) ∧
            (flat.drop i).get? (j + 3) = some (Slot.v c)
        · rw [if_pos hc, if_pos hc]
          simp [Nat.add_comm]
        · rw [if_neg hc, if_neg hc]
          have h5 : i + j + 5 = i + (j + 5) := by omega
          rw [h5, ih (j + 5) (by omega)]
      · have h2 : ¬ j < (flat.drop i).length := by
          rw [List.length_drop]
          omega
        rw [findListener, dif_neg h1]
        conv_rhs => rw [findListener]
        rw [dif_neg h2]
        rfl
  intro j
  exact H (flat.length - (i + j)) j (Nat.le_refl _)

theorem findListener_flatten (e n c : Nat) (L : List Listener) :
    findListener (flattenListeners L) e n c 0 =
      (firstMatchIdx e n c L).map (fun j => 5 * j) := by
  induction L with
  | nil =>
    rw [findListener]
    simp [flattenListeners, firstMatchIdx]
  | cons l L ih =>
    rw [findListener]
    have hlen : 0 < (flattenListeners (l :: L)).length := by
      rw [flattenListeners_length]
      simp
    rw [dif_pos hlen]
    have g0 : (flattenListeners (l :: L)).get? 0 = some (Slot.v l.element) := rfl
    have g1 : (flattenListeners (l :: L)).get? (0 + 1) = some (Slot.v l.eventName) := rfl
    have g3 : (flattenListeners (l :: L)).get? (0 + 3) = some (Slot.v l.originalCallback) := rfl
    rw [g0, g1, g3]
    by_cases hm : matchesL e n c l = true
    · have hc : some (Slot.v l.element) = some (Slot.v e) ∧
          some (Slot.v l.eventName) = some (Slot.v n) ∧
          some (Slot.v l.originalCallback) = some (Slot.v c) := by
        simp only [matchesL, Bool.and_eq_true, beq_iff_eq] at hm
        simp [hm.1.1, hm.1.2, hm.2]
      rw [if_pos hc]
      simp [firstMatchIdx, hm]
    · have hc : ¬ (some (Slot.v l.element) = some (Slot.v e) ∧
          some (Slot.v l.eventName) = some (Slot.v n) ∧
          some (Slot.v l.originalCallback) = some (Slot.v c)) := by
        simp only [matchesL, Bool.and_eq_true, beq_iff_eq] at hm
        intro hcon
        apply hm
        refine ⟨⟨?_, ?_⟩, ?_⟩
        · injection hcon.1 with h1; injection h1
        · injection hcon.2.1 with h1; injection h1
        · injection hcon.2.2 with h1; injection h1
      rw [if_neg hc]
      have hdrop := findListener_drop e n c (flattenListeners (l :: L)) 5 0
      have h05 : (0 : Nat) + 5 = 5 + 0 := by omega
      rw [h05, hdrop]
      have hdl : (flattenListeners (l :: L)).drop 5 = flattenListeners L := rfl
      rw [hdl, ih]
      have hfm : firstMatchIdx e n c (l :: L) =
          (firstMatchIdx e n c L).map (fun j => j + 1) := by
        simp [firstMatchIdx, hm]
      rw [hfm]
      cases firstMatchIdx e n c L with
      | none => rfl
      | some k =>
        simp
        omega

theorem firstMatchIdx_none (e n c : Nat) (L : List Listener)
    (h : ∀ x ∈ L, matchesL e n c x = false) : firstMatchIdx e n c L = none := by
  induction L with
  | nil => rfl
  | cons l L ih =>
    have h0 := h l (List.mem_cons_self l L)
    simp [firstMatchIdx, h0, ih (fun x hx => h x (List.mem_cons_of_mem _ hx))]

theorem firstMatchIdx_append (e n c : Nat) (L1 : List Listener) (l : Listener)
    (L2 : List Listener) (h1 : ∀ x ∈ L1, matchesL e n c x = false)
    (h2 : matchesL e n c l = true) :
    firstMatchIdx e n c (L1 ++ l :: L2) = some L1.length := by
  induction L1 with
  | nil => simp [firstMatchIdx, h2]
  | cons a L1 ih =>
    have h0 := h1 a (List.mem_cons_self a L1)
    have hrec := ih (fun x hx => h1 x (List.mem_cons_of_mem _ hx))
    simp [firstMatchIdx, h0, hrec]

theorem firstMatchIdx_lt (e n c : Nat) (L : List Listener) (j : Nat)
    (h : firstMatchIdx e n c L = some j) : j < L.length := by
  induction L generalizing j with
  | nil => cases h
  | cons l L ih =>
    unfold firstMatchIdx at h
    by_cases hm : matchesL e n c l = true
    · rw [if_pos hm] at h
      injection h with h
      simp [← h]
    · rw [if_neg hm] at h
      cases hf : firstMatchIdx e n c L with
      | none => rw [hf] at h; cases h
      | some k =>
        rw [hf] at h
        have h2 : k + 1 = j := by simpa using h
        have := ih k hf
        simp
        omega

theorem splice_flatten (L : List Listener) (j : Nat) (hj : j < L.length) :
    (flattenListeners L).take (5 * j) ++ (flattenListeners L).drop (5 * j + 5) =
      flattenListeners (L.take j ++ L.drop (j + 1)) := by
  induction L generalizing j with
  | nil => cases hj
  | cons l L ih =>
    cases j with
    | zero => simp [flattenListeners]
    | succ j =>
      have hj' : j < L.length := by simpa using hj
      have h5 : 5 * (j + 1) = 5 * j + 1 + 1 + 1 + 1 + 1 := by omega
      have h55 : 5 * (j + 1) + 5 = 5 * j + 5 + 1 + 1 + 1 + 1 + 1 := by omega
      rw [h55, h5]
      simp only [flattenListeners, List.take_succ_cons, List.drop_succ_cons,
        List.cons_append]
      rw [ih j hj']
      simp [List.append_eq]

theorem get?_flatten_callback (L1 : List Listener) (l : Listener) (L2 : List Listener) :
    (flattenListeners (L1 ++ l :: L2)).get? (5 * L1.length + 2) =
      some (Slot.v l.callback) := by
  induction L1 with
  | nil => rfl
  | cons a L1 ih =>
    have h5 : 5 * ((a :: L1).length) + 2 = 5 * L1.length + 2 + 1 + 1 + 1 + 1 + 1 := by
      simp only [List.length_cons]
      omega
    rw [h5]
    simp only [List.cons_append, flattenListeners, List.get?_cons_succ]
    exact ih

/-- C6: `removeEventListener` scans the owner's flat list in order for the
first 5-slot tuple whose element, event name and *original* callback
match, unregisters that tuple's wrapper from the target and splices out
exactly that tuple, preserving the rest in order; with no match it is a
no-op.  Two identical registrations are two independent tuples, of which
one removal call removes exactly the first. -/
theorem removeEventListener_first_match (env : EvEnv) (obj e eventName cb : Nat)
    (options : Option Nat) (s : EvState) (L : List Listener)
    (he : env.isElement e = true)
    (hL : assocLookup s.lists obj = some (flattenListeners L)) :
    ∃ s', removeEventListener env obj (some e) eventName cb options s = .ok s' ∧
      ((∀ x ∈ L, matchesL e eventName cb x = false) → s' = s) ∧
      (∀ L1 l L2, L = L1 ++ l :: L2 →
        (∀ x ∈ L1, matchesL e eventName cb x = false) →
        matchesL e eventName cb l = true →
        assocLookup s'.lists obj = some (flattenListeners (L1 ++ L2)) ∧
        (∀ obj2, obj2 ≠ obj → assocLookup s'.lists obj2 = assocLookup s.lists obj2) ∧
        s'.extCalls = s.extCalls ++
          [ExtCall.removeL e eventName (some (Slot.v l.callback))
            (if s.passiveSupported then options else none)]) := by
  cases hf : findListener (flattenListeners L) e eventName cb 0 with
  | none =>
    refine ⟨s, removeEventListener_ok_none env obj e eventName cb options s _ he hL hf,
      fun _ => rfl, ?_⟩
    intro L1 l L2 hdec h1 h2
    exfalso
    rw [findListener_flatten, hdec,
      firstMatchIdx_append e eventName cb L1 l L2 h1 h2] at hf
    cases hf
  | some i =>
    have hok := removeEventListener_ok_found env obj e eventName cb options s _ i he hL hf
    refine ⟨_, hok, ?_, ?_⟩
    · intro hnone
      exfalso
      rw [findListener_flatten, firstMatchIdx_none e eventName cb L hnone] at hf
      cases hf
    · intro L1 l L2 hdec h1 h2
      have hidx : i = 5 * L1.length := by
        rw [findListener_flatten, hdec,
          firstMatchIdx_append e eventName cb L1 l L2 h1 h2] at hf
        simp only [Option.map] at hf
        injection hf with hf
        exact hf.symm
      subst hidx
      have hlt : L1.length < L.length := by
        rw [hdec]
        simp
      have htake : (L1 ++ l :: L2).take L1.length = L1 := List.take_left L1 (l :: L2)
      have hdrop2 : (L1 ++ l :: L2).drop (L1.length + 1) = L2 := by
        have hsh : L1 ++ l :: L2 = (L1 ++ [l]) ++ L2 := by simp
        rw [hsh]
        have hlen : L1.length + 1 = (L1 ++ [l]).length := by simp
        rw [hlen, List.drop_left]
      refine ⟨?_, ?_, ?_⟩
      · simp only
        rw [assocLookup_insert_self]
        have hsplice := splice_flatten L L1.length hlt
        rw [hsplice, hdec, htake, hdrop2]
      · intro obj2 hne
        simp only
        rw [assocLookup_insert_ne _ _ _ _ hne]
      · simp only
        rw [hdec, get?_flatten_callback]

/-- Concrete state with the same `(element 7, event 1, callback 2)`
registered twice for owner 0: two independent tuples with distinct
dispatch wrappers 0 and 1. -/
def sDup : EvState :=
  evRun envElemAll [EvOp.add 0 (some 7) 1 2 none, EvOp.add 0 (some 7) 1 2 none]
    (evInit true)

theorem removeEventListener_first_match_witness :
    ∃ s', removeEventListener envElemAll 0 (some 7) 1 2 none sDup = .ok s' ∧
      ((∀ x ∈ [Listener.mk 7 1 0 2 none, Listener.mk 7 1 1 2 none],
          matchesL 7 1 2 x = false) → s' = sDup) ∧
      (∀ L1 l L2,
        [Listener.mk 7 1 0 2 none, Listener.mk 7 1 1 2 none] = L1 ++ l :: L2 →
        (∀ x ∈ L1, matchesL 7 1 2 x = false) →
        matchesL 7 1 2 l = true →
        assocLookup s'.lists 0 = some (flattenListeners (L1 ++ L2)) ∧
        (∀ obj2, obj2 ≠ 0 → assocLookup s'.lists obj2 = assocLookup sDup.lists obj2) ∧
        s'.extCalls = sDup.extCalls ++
          [ExtCall.removeL 7 1 (some (Slot.v l.callback))
            (if sDup.passiveSupported then none else none)]) :=
  removeEventListener_first_match envElemAll 0 7 1 2 none sDup
    [Listener.mk 7 1 0 2 none, Listener.mk 7 1 1 2 none] rfl (by decide)

/-- Structural well-formedness of the event registry: every stored flat
list is the layout of a whole number of 5-slot tuples. -/
def WFListeners (s : EvState) : Prop :=
  ∀ obj flat, assocLookup s.lists obj = some flat → ∃ L, flat = flattenListeners L

theorem WFListeners_step (env : EvEnv) (op : EvOp) (s : EvState)
    (h : WFListeners s) : WFListeners (evStep env op s) := by
  cases op with
  | add o element eventName cb options =>
    cases element with
    | none =>
      simpa [evStep, addEventListener] using h
    | some e =>
      by_cases he : env.isElement e = true
      · cases hb : assocLookup s.lists o with
        | some l =>
          obtain ⟨L, hL⟩ := h o l hb
          simp only [evStep, addEventListener_ok_blob env o e eventName cb options s l he hb]
          intro obj flat hflat
          by_cases ho : obj = o
          · subst ho
            rw [assocLookup_insert_self] at hflat
            injection hflat with hflat
            refine ⟨L ++ [⟨e, eventName, s.nextCb, cb,
              if s.passiveSupported then options else none⟩], ?_⟩
            rw [← hflat, hL, flattenListeners_append]
            rfl
          · rw [assocLookup_insert_ne _ _ _ _ ho] at hflat
            exact h obj flat hflat
        | none =>
          simp only [evStep, addEventListener_ok_noblob env o e eventName cb options s he hb]
          intro obj flat hflat
          by_cases ho : obj = o
          · subst ho
            rw [assocLookup_insert_self] at hflat
            injection hflat with hflat
            refine ⟨[⟨e, eventName, s.nextCb, cb,
              if s.passiveSupported then options else none⟩], ?_⟩
            rw [← hflat]
            rfl
          · rw [assocLookup_insert_ne _ _ _ _ ho,
              assocLookup_insert_ne _ _ _ _ ho] at hflat
            exact h obj flat hflat
      · have he' : env.isElement e = false := Bool.eq_false_iff.mpr he
        have hstep : evStep env (EvOp.add o (some e) eventName cb options) s = s := by
          simp only [evStep, addEventListener, he']
          simp
        rw [hstep]
        exact h
  | removeOp o element eventName cb options =>
    cases element with
    | none =>
      simpa [evStep, removeEventListener] using h
    | some e =>
      by_cases he : env.isElement e = true
      · cases hb : assocLookup s.lists o with
        | some l =>
          obtain ⟨L, hL⟩ := h o l hb
          cases hf : findListener l e eventName cb 0 with
          | none =>
            simp only [evStep,
              removeEventListener_ok_none env o e eventName cb options s l he hb hf]
            exact h
          | some i =>
            simp only [evStep,
              removeEventListener_ok_found env o e eventName cb options s l i he hb hf]
            intro obj flat hflat
            by_cases ho : obj = o
            · subst ho
              rw [assocLookup_insert_self] at hflat
              injection hflat with hflat
              rw [hL] at hf
              rw [findListener_flatten] at hf
              cases hj : firstMatchIdx e eventName cb L with
              | none => rw [hj] at hf; cases hf
              | some j =>
                rw [hj] at hf
                simp only [Option.map] at hf
                injection hf with hf
                have hjlt := firstMatchIdx_lt e eventName cb L j hj
                refine ⟨L.take j ++ L.drop (j + 1), ?_⟩
                rw [← hflat, hL, ← hf, splice_flatten L j hjlt]
            · rw [assocLookup_insert_ne _ _ _ _ ho] at hflat
              exact h obj flat hflat
        | none =>
          simp only [evStep,
            removeEventListener_ok_noblob env o e eventName cb options s he hb]
          intro obj flat hflat
          by_cases ho : obj = o
          · subst ho
            rw [assocLookup_insert_self] at hflat
            injection hflat with hflat
            exact ⟨[], hflat.symm⟩
          · rw [assocLookup_insert_ne _ _ _ _ ho] at hflat
            exact h obj flat hflat
      · have he' : env.isElement e = false := Bool.eq_false_iff.mpr he
        have hstep : evStep env (EvOp.removeOp o (some e) eventName cb options) s = s := by
          simp only [evStep, removeEventListener, he']
          simp
        rw [hstep]
        exact h
  | dispose o =>
    simp only [evStep]
    unfold getEventListenersDisposable
    by_cases ht : o ∈ s.evTorn
    · simpa [ht] using h
    · simp only [ht, if_false]
      cases hb : assocLookup s.lists o with
      | none => exact h
      | some l =>
        intro obj flat hflat
        exact h obj flat hflat

theorem WFListeners_run (env : EvEnv) (tr : List EvOp) :
    ∀ s, WFListeners s → WFListeners (evRun env tr s) := by
  induction tr with
  | nil => intro s h; exact h
  | cons op tr ih =>
    intro s h
    exact ih (evStep env op s) (WFListeners_step env op s h)

theorem WFListeners_init (ps : Bool) : WFListeners (evInit ps) := by
  intro obj flat hflat
  cases hflat

/-- C10: in every reachable state the stored flat subscription array is a
whole number of 5-slot tuples (its length is a multiple of 5); a
successful `addEventListener` appends exactly the five slots (element,
event name, dispatch callback, original callback, stored options), and a
successful `removeEventListener` either leaves the array unchanged or
removes exactly 5 contiguous slots starting at a tuple boundary. -/
theorem listener_flat_tuple_invariant (env : EvEnv) (ps : Bool) (tr : List EvOp)
    (obj e eventName cb : Nat) (options : Option Nat) :
    (∀ flat, assocLookup (evRun env tr (evInit ps)).lists obj = some flat →
      flat.length % 5 = 0) ∧
    (∀ s', addEventListener env obj (some e) eventName cb options
        (evRun env tr (evInit ps)) = .ok s' →
      assocLookup s'.lists obj = some
        (((assocLookup (evRun env tr (evInit ps)).lists obj).getD []) ++
          [Slot.v e, Slot.v eventName, Slot.v (evRun env tr (evInit ps)).nextCb, Slot.v cb,
           Slot.o (if (evRun env tr (evInit ps)).passiveSupported then options else none)])) ∧
    (∀ s' flat flat', removeEventListener env obj (some e) eventName cb options
        (evRun env tr (evInit ps)) = .ok s' →
      assocLookup (evRun env tr (evInit ps)).lists obj = some flat →
      assocLookup s'.lists obj = some flat' →
      (flat' = flat ∨ ∃ j, 5 * j + 5 ≤ flat.length ∧
        flat' = flat.take (5 * j) ++ flat.drop (5 * j + 5))) := by
  have hwf : WFListeners (evRun env tr (evInit ps)) :=
    WFListeners_run env tr (evInit ps) (WFListeners_init ps)
  set s := evRun env tr (evInit ps) with hs
  refine ⟨?_, ?_, ?_⟩
  · intro flat hflat
    obtain ⟨L, hL⟩ := hwf obj flat hflat
    rw [hL, flattenListeners_length]
    omega
  · intro s' hok
    by_cases he : env.isElement e = true
    · cases hb : assocLookup s.lists obj with
      | some l =>
        rw [addEventListener_ok_blob env obj e eventName cb options s l he hb] at hok
        injection hok with hok
        rw [← hok]
        simp only
        rw [assocLookup_insert_self]
        rfl
      | none =>
        rw [addEventListener_ok_noblob env obj e eventName cb options s he hb] at hok
        injection hok with hok
        rw [← hok]
        simp only
        rw [assocLookup_insert_self]
        rfl
    · have he' : env.isElement e = false := Bool.eq_false_iff.mpr he
      rw [addEventListener, he'] at hok
      simp at hok
  · intro s' flat flat' hok hflat hflat'
    by_cases he : env.isElement e = true
    · cases hb : assocLookup s.lists obj with
      | some l =>
        have hlf : l = flat := by
          rw [hb] at hflat
          injection hflat
        subst hlf
        cases hf : findListener l e eventName cb 0 with
        | none =>
          rw [removeEventListener_ok_none env obj e eventName cb options s l he hb hf] at hok
          injection hok with hok
          rw [← hok] at hflat'
          rw [hb] at hflat'
          injection hflat' with hflat'
          exact Or.inl hflat'.symm
        | some i =>
          rw [removeEventListener_ok_found env obj e eventName cb options s l i he hb hf] at hok
          injection hok with hok
          rw [← hok] at hflat'
          simp only at hflat'
          rw [assocLookup_insert_self] at hflat'
          injection hflat' with hflat'
          obtain ⟨L, hL⟩ := hwf obj l hb
          rw [hL, findListener_flatten] at hf
          cases hj : firstMatchIdx e eventName cb L with
          | none => rw [hj] at hf; cases hf
          | some j =>
            rw [hj] at hf
            simp only [Option.map] at hf
            injection hf with hf
            have hjlt := firstMatchIdx_lt e eventName cb L j hj
            rw [← hf] at hflat'
            refine Or.inr ⟨j, ?_, hflat'.symm⟩
            rw [hL, flattenListeners_length]
            omega
      | none =>
        rw [removeEventListener_ok_noblob env obj e eventName cb options s he hb] at hok
        rw [hb] at hflat
        cases hflat
    · have he' : env.isElement e = false := Bool.eq_false_iff.mpr he
      rw [removeEventListener, he'] at hok
      simp at hok

theorem listener_flat_tuple_invariant_witness :
    assocLookup (evRun envElemAll [EvOp.add 0 (some 7) 1 2 none] (evInit true)).lists 0 =
      some [Slot.v 7, Slot.v 1, Slot.v 0, Slot.v 2, Slot.o none] ∧
    ([Slot.v 7, Slot.v 1, Slot.v 0, Slot.v 2, Slot.o none] : List Slot).length % 5 = 0 :=
  ⟨by decide,
   (listener_flat_tuple_invariant envElemAll true [EvOp.add 0 (some 7) 1 2 none]
      0 7 1 2 none).1 _ (by decide)⟩

theorem evStep_passive (env : EvEnv) (op : EvOp) (t : EvState) :
    (evStep env op t).passiveSupported = t.passiveSupported := by
  cases op with
  | add o element eventName cb options =>
    cases element with
    | none => rfl
    | some e2 =>
      by_cases he2 : env.isElement e2 = true
      · cases hb : assocLookup t.lists o with
        | some l =>
          simp [evStep, addEventListener_ok_blob env o e2 eventName cb options t l he2 hb]
        | none =>
          simp [evStep, addEventListener_ok_noblob env o e2 eventName cb options t he2 hb]
      · have he2' : env.isElement e2 = false := Bool.eq_false_iff.mpr he2
        simp [evStep, addEventListener, he2']
  | removeOp o element eventName cb options =>
    cases element with
    | none => rfl
    | some e2 =>
      by_cases he2 : env.isElement e2 = true
      · cases hb : assocLookup t.lists o with
        | some l =>
          cases hf : findListener l e2 eventName cb 0 with
          | none =>
            simp [evStep,
              removeEventListener_ok_none env o e2 eventName cb options t l he2 hb hf]
          | some i =>
            simp [evStep,
              removeEventListener_ok_found env o e2 eventName cb options t l i he2 hb hf]
        | none =>
          simp [evStep, removeEventListener_ok_noblob env o e2 eventName cb options t he2 hb]
      · have he2' : env.isElement e2 = false := Bool.eq_false_iff.mpr he2
        simp [evStep, removeEventListener, he2']
  | dispose o =>
    simp only [evStep]
    unfold getEventListenersDisposable
    by_cases ht : o ∈ t.evTorn
    · simp [ht]
    · simp only [ht, if_false]
      cases hb : assocLookup t.lists o with
      | none => rfl
      | some l => rfl

/-- C7: the `PASSIVE_SUPPORTED` capability is a process-wide constant
fixed at module evaluation — no operation ever changes it — and when it is
false the caller-supplied options argument is dropped (passed as absent)
uniformly on every `addEventListener` and `removeEventListener` call,
both toward the external event source and in the stored tuple, while the
subscription itself still succeeds. -/
theorem passive_option_dropped_uniformly (env : EvEnv) (obj e eventName cb : Nat)
    (options options2 : Option Nat) (s : EvState)
    (he : env.isElement e = true) (hp : s.passiveSupported = false) :
    (∀ op t, (evStep env op t).passiveSupported = t.passiveSupported) ∧
    (∃ s', addEventListener env obj (some e) eventName cb options s = .ok s' ∧
      s'.passiveSupported = false ∧
      s'.extCalls = s.extCalls ++ [ExtCall.addL e eventName s.nextCb none] ∧
      ∃ l, assocLookup s'.lists obj =
        some (l ++ [Slot.v e, Slot.v eventName, Slot.v s.nextCb, Slot.v cb,
          Slot.o none])) ∧
    (∃ s', removeEventListener env obj (some e) eventName cb options2 s = .ok s' ∧
      s'.passiveSupported = false ∧
      (s'.extCalls = s.extCalls ∨ ∃ oc, s'.extCalls = s.extCalls ++
        [ExtCall.removeL e eventName oc none])) := by
  refine ⟨evStep_passive env, ?_, ?_⟩
  · cases hb : assocLookup s.lists obj with
    | some l =>
      refine ⟨_, addEventListener_ok_blob env obj e eventName cb options s l he hb, ?_, ?_, ?_⟩
      · exact hp
      · simp [hp]
      · refine ⟨l, ?_⟩
        simp only [hp]
        rw [assocLookup_insert_self]
        simp
    | none =>
      refine ⟨_, addEventListener_ok_noblob env obj e eventName cb options s he hb, ?_, ?_, ?_⟩
      · exact hp
      · simp [hp]
      · refine ⟨[], ?_⟩
        simp only [hp]
        rw [assocLookup_insert_self]
        simp
  · cases hb : assocLookup s.lists obj with
    | some l =>
      cases hf : findListener l e eventName cb 0 with
      | none =>
        exact ⟨s, removeEventListener_ok_none env obj e eventName cb options2 s l he hb hf,
          hp, Or.inl rfl⟩
      | some i =>
        refine ⟨_, removeEventListener_ok_found env obj e eventName cb options2 s l i he hb hf,
          hp, Or.inr ⟨l.get? (i + 2), ?_⟩⟩
        simp [hp]
    | none =>
      exact ⟨_, removeEventListener_ok_noblob env obj e eventName cb options2 s he hb,
        hp, Or.inl rfl⟩

theorem passive_option_dropped_uniformly_witness :
    (∀ op t, (evStep envElemAll op t).passiveSupported = t.passiveSupported) ∧
    (∃ s', addEventListener envElemAll 0 (some 7) 1 2 (some 9) (evInit false) = .ok s' ∧
      s'.passiveSupported = false ∧
      s'.extCalls = (evInit false).extCalls ++ [ExtCall.addL 7 1 (evInit false).nextCb none] ∧
      ∃ l, assocLookup s'.lists 0 =
        some (l ++ [Slot.v 7, Slot.v 1, Slot.v (evInit false).nextCb, Slot.v 2,
          Slot.o none])) ∧
    (∃ s', removeEventListener envElemAll 0 (some 7) 1 2 (some 9) (evInit false) = .ok s' ∧
      s'.passiveSupported = false ∧
      (s'.extCalls = (evInit false).extCalls ∨ ∃ oc, s'.extCalls = (evInit false).extCalls ++
        [ExtCall.removeL 7 1 oc none])) :=
  passive_option_dropped_uniformly envElemAll 0 7 1 2 (some 9) (some 9) (evInit false)
    rfl rfl

end EmberLifeline
